import Mathlib

/-!
Verification of `update_image_dates.py` (the `update_image_dates` function and
its `IMAGE_EXTENSIONS` constant).

Modelling choices:
* Python strings are sequences of Unicode code points; we embed them as
  `List Nat` (`Str`).  Python's `<` on strings is code-point lexicographic
  comparison (`strLt`), and `list.sort()` on strings is an ascending stable
  sort by `<` (`pySort`).
* `str.lower` is embedded on its ASCII fragment (`lowerChar`): code points
  65..90 map to 97..122, everything else is unchanged.  All extension sets
  in the program are ASCII.
* `datetime` values are embedded as seconds on the proleptic Gregorian
  calendar (`dtSeconds`, mirroring CPython's `date.toordinal`), so
  `timedelta(minutes=m)` is `+ m * 60`.
* `datetime.strptime(s, "%Y-%m-%d %H:%M:%S")` is embedded as
  `strptimeYmdHms` at the format's canonical field widths, with the same
  range validation (month, day-of-month including leap years, hour,
  minute, second) that makes CPython raise `ValueError`.
* The outside world (one run's view of it) is an `Env`: the result of
  `os.path.isdir`, the entries yielded by `os.scandir`, `datetime.now()`,
  and the outcome of each `subprocess.run` invocation per file path
  (`ok` = exit status 0, `cpe` = `CalledProcessError` from `check=True`,
  `fnf` = `FileNotFoundError` because the executable is absent).
* The function's observable behaviour is a trace of events (`print` calls
  and the two timestamp-setting subprocess invocations) together with how
  control leaves the function: a normal `return`, or an exception
  propagating to the caller (`raisedFNF`: `FileNotFoundError` is not
  caught by `except subprocess.CalledProcessError`).
-/

/-- A Python string: its list of Unicode code points. -/
abbrev Str := List Nat

/-- Code points of a Lean string literal, used to write `Str` constants. -/
def str (s : String) : Str := s.data.map Char.toNat

/-- Python `a < b` on strings: code-point lexicographic comparison. -/
def strLt : Str → Str → Bool
  | [], [] => false
  | [], _ :: _ => true
  | _ :: _, [] => false
  | a :: as, b :: bs => if a < b then true else if b < a then false else strLt as bs

/-- Insert into a `strLt`-ascending list, keeping earlier-inserted equals first. -/
def insertSorted (x : Str) : List Str → List Str
  | [] => [x]
  | y :: ys => if strLt x y then x :: y :: ys else y :: insertSorted x ys

/-- `list.sort()` on a list of Python strings: ascending by `strLt`. -/
def pySort (l : List Str) : List Str := l.foldr insertSorted []

/-- Last index of `'.'` (code point 46) in a string, `os.path`'s `p.rfind('.')`. -/
def rfindDot : Str → Option Nat
  | [] => none
  | c :: cs =>
    match rfindDot cs with
    | some i => some (i + 1)
    | none => if c == 46 then some 0 else none

/-- `os.path.splitext` on a bare file name (no directory separator):
split at the last dot, except that a name whose characters before that dot
are all dots (e.g. `".jpg"`) is left whole with an empty extension. -/
def splitextName (s : Str) : Str × Str :=
  match rfindDot s with
  | none => (s, [])
  | some i => if (s.take i).all (fun c => c == 46) then (s, []) else (s.take i, s.drop i)

/-- ASCII fragment of `str.lower` on one code point. -/
def lowerChar (c : Nat) : Nat := if 65 ≤ c ∧ c ≤ 90 then c + 32 else c

/-- ASCII fragment of `str.lower`. -/
def lowerStr (s : Str) : Str := s.map lowerChar

/-- `os.path.join(folder, name)` as `os.scandir` builds `entry.path`
(`name` is a bare entry name, never absolute). -/
def joinPath (folder name : Str) : Str :=
  if folder = [] then name
  else if folder.getLast? = some 47 then folder ++ name
  else folder ++ [47] ++ name

/-- `os.path.basename` of a path. -/
def basename (p : Str) : Str := (p.reverse.takeWhile (fun c => c != 47)).reverse

/-- Is the pattern a prefix of the string (for Python's substring test). -/
def startsWith (pat s : Str) : Bool := pat.isPrefixOf s

/-- Python `pat in s`: substring occurrence. -/
def containsSub (pat : Str) : Str → Bool
  | [] => pat == []
  | c :: cs => startsWith pat (c :: cs) || containsSub pat cs

/-- The module constant `IMAGE_EXTENSIONS`. -/
def IMAGE_EXTENSIONS : List Str :=
  [str ".jpg", str ".jpeg", str ".png", str ".tiff", str ".tif",
   str ".heic", str ".nef", str ".cr2", str ".arw"]

/-- One entry yielded by `os.scandir`: its bare name and whether
`entry.is_file()` holds. -/
structure Entry where
  name : Str
  isFile : Bool
deriving DecidableEq

/-- The filter of the scan loop: `entry.is_file() and
os.path.splitext(entry.name)[1].lower() in valid_extensions`. -/
def matchesFilter (exts : List Str) (e : Entry) : Bool :=
  e.isFile && decide (lowerStr (splitextName e.name).2 ∈ exts)

/-- The scan loop: full paths of the entries that pass the filter,
in scandir order (they are sorted afterwards). -/
def collectFiles (folder : Str) (entries : List Entry) (exts : List Str) : List Str :=
  (entries.filter (matchesFilter exts)).map (fun e => joinPath folder e.name)

/-! ### Calendar arithmetic (CPython `datetime` internals) -/

/-- Gregorian leap year. -/
def isLeap (y : Nat) : Bool := y % 4 == 0 && (y % 100 != 0 || y % 400 == 0)

/-- Days in a month (month is 1..12). -/
def daysInMonth (y m : Nat) : Nat :=
  if m == 2 then (if isLeap y then 29 else 28)
  else if m == 4 || m == 6 || m == 9 || m == 11 then 30
  else 31

/-- Days in the years `1 .. y-1`. -/
def daysBeforeYear (y : Nat) : Nat :=
  let n := y - 1
  n * 365 + n / 4 - n / 100 + n / 400

/-- Days in the months `1 .. m-1` of year `y`. -/
def daysBeforeMonth (y m : Nat) : Nat :=
  ((List.range (m - 1)).map (fun i => daysInMonth y (i + 1))).sum

/-- CPython's `date.toordinal`: day number with 0001-01-01 as day 1. -/
def toOrdinal (y m d : Nat) : Nat := daysBeforeYear y + daysBeforeMonth y m + d

/-- A `datetime` as seconds since 0001-01-01 00:00:00. -/
def dtSeconds (y mo d h mi s : Nat) : Int :=
  ((toOrdinal y mo d : Int) - 1) * 86400 + h * 3600 + mi * 60 + s

/-- Value of a decimal digit code point. -/
def digitVal (c : Nat) : Option Nat :=
  if 48 ≤ c ∧ c ≤ 57 then some (c - 48) else none

/-- Read a string of decimal digits as a number (none on any non-digit). -/
def readNat (l : Str) : Option Nat :=
  l.foldl
    (fun acc c =>
      match acc, digitVal c with
      | some a, some d => some (a * 10 + d)
      | _, _ => none)
    (some 0)

/-- `datetime.strptime(s, "%Y-%m-%d %H:%M:%S")` at the format's canonical
field widths, with CPython's range validation; `none` is `ValueError`. -/
def strptimeYmdHms (s : Str) : Option Int :=
  if s.length = 19 ∧ s.get? 4 = some 45 ∧ s.get? 7 = some 45 ∧ s.get? 10 = some 32
      ∧ s.get? 13 = some 58 ∧ s.get? 16 = some 58 then
    match readNat (s.take 4), readNat ((s.drop 5).take 2), readNat ((s.drop 8).take 2),
        readNat ((s.drop 11).take 2), readNat ((s.drop 14).take 2), readNat ((s.drop 17).take 2) with
    | some y, some mo, some d, some h, some mi, some se =>
      if 1 ≤ y ∧ mo ≤ 12 ∧ 1 ≤ mo ∧ 1 ≤ d ∧ d ≤ daysInMonth y mo ∧ h ≤ 23 ∧ mi ≤ 59 ∧ se ≤ 59
      then some (dtSeconds y mo d h mi se)
      else none
    | _, _, _, _, _, _ => none
  else none

/-! ### The run function -/

/-- Outcome of one `subprocess.run([...], check=True)` invocation:
exit status 0, `CalledProcessError` (non-zero exit), or
`FileNotFoundError` (the executable is absent from the platform). -/
inductive CallResult
  | ok
  | cpe
  | fnf
deriving DecidableEq

/-- One run's view of the outside world. -/
structure Env where
  isdir : Bool
  entries : List Entry
  now : Int
  touchRes : Str → CallResult
  setFileRes : Str → CallResult

/-- The messages the function prints, with their data. -/
inductive Msg
  | errNotDir
  | errIncrement
  | noFiles
  | invalidDate
  | found (n : Nat)
  | startingDate (t : Int)
  | increment (m : Int)
  | progress (i total : Nat) (name : Str) (t : Int)
  | errUpdating (path : Str)
  | setFileNote1
  | setFileNote2
deriving DecidableEq

/-- Observable events of a run: prints and the two timestamp-setting
subprocess invocations (with the timestamp passed to each). -/
inductive Event
  | printed (m : Msg)
  | touchCall (path : Str) (t : Int)
  | setFileCall (path : Str) (t : Int)
deriving DecidableEq

/-- How control leaves `update_image_dates`: a normal return, or a
`FileNotFoundError` propagating to the caller (it is not caught by
`except subprocess.CalledProcessError`). -/
inductive RunOutcome
  | returned
  | raisedFNF
deriving DecidableEq

/-- The `start_date` argument: `None`, a `str`, or a `datetime`. -/
inductive StartDate
  | none
  | text (v : Str)
  | dt (t : Int)
deriving DecidableEq

/-- Resolution of the start timestamp (lines 54-61 of the source):
`None` becomes `datetime.now()`, a string is parsed with
`"%Y-%m-%d %H:%M:%S"`, a `datetime` is used as is. -/
def resolveStart (env : Env) : StartDate → Option Int
  | .none => some env.now
  | .text v => strptimeYmdHms v
  | .dt t => some t

/-- The `for` loop of `update_image_dates` (lines 71-95): for each file,
run `touch -mt` then `SetFile -d`; on success print the progress line and
advance `current_date` by `increment_minutes`; on `CalledProcessError`
print the error and stop (with the extra `SetFile` note when the message
contains `"SetFile"` — the `touch` command line contains that substring
only if the file path does); a `FileNotFoundError` is not caught and
propagates.  (`str(e)` for `CalledProcessError` spells out the command
list, so for the `SetFile` command the substring test is always true,
and for the `touch` command it is true iff the path contains it.) -/
def processFiles (env : Env) (inc : Int) (total : Nat) :
    List Str → Int → Nat → List Event × RunOutcome
  | [], _, _ => ([], .returned)
  | p :: rest, current, i =>
    match env.touchRes p with
    | .fnf => ([.touchCall p current], .raisedFNF)
    | .cpe =>
      if containsSub (str "SetFile") p then
        ([.touchCall p current, .printed (.errUpdating p),
          .printed .setFileNote1, .printed .setFileNote2], .returned)
      else
        ([.touchCall p current, .printed (.errUpdating p)], .returned)
    | .ok =>
      match env.setFileRes p with
      | .fnf => ([.touchCall p current, .setFileCall p current], .raisedFNF)
      | .cpe =>
        ([.touchCall p current, .setFileCall p current, .printed (.errUpdating p),
          .printed .setFileNote1, .printed .setFileNote2], .returned)
      | .ok =>
        let r := processFiles env inc total rest (current + inc * 60) (i + 1)
        (.touchCall p current :: .setFileCall p current ::
          .printed (.progress i total (basename p) current) :: r.1, r.2)

/-- Lines 36-47 of the source: resolve the extension set
(`extensions if extensions is not None else IMAGE_EXTENSIONS`), scan,
filter, and sort the matching full paths — the run's `image_files`. -/
def sortedImageFiles (env : Env) (folder : Str) (extensions : Option (List Str)) : List Str :=
  pySort (collectFiles folder env.entries (extensions.getD IMAGE_EXTENSIONS))

/-- The function `update_image_dates(folder_path, start_date,
increment_minutes, extensions)` (lines 12-95 of the source), as the event
trace it produces and the way control leaves it. -/
def update_image_dates (env : Env) (folder_path : Str) (start_date : StartDate)
    (increment_minutes : Int) (extensions : Option (List Str)) :
    List Event × RunOutcome :=
  if env.isdir = false then ([.printed .errNotDir], .returned)
  else if increment_minutes ≤ 0 then ([.printed .errIncrement], .returned)
  else
    let image_files := sortedImageFiles env folder_path extensions
    if image_files = [] then ([.printed .noFiles], .returned)
    else
      match resolveStart env start_date with
      | Option.none => ([.printed .invalidDate], .returned)
      | Option.some start =>
        let r := processFiles env increment_minutes image_files.length image_files start 1
        ([.printed (.found image_files.length), .printed (.startingDate start),
          .printed (.increment increment_minutes)] ++ r.1, r.2)

/-! ### Trace projections and expected traces -/

/-- The timestamp-setting subprocess calls in a trace: for each, the
file path and the timestamp passed. -/
def tsCalls (evs : List Event) : List (Str × Int) :=
  evs.filterMap fun e =>
    match e with
    | .touchCall p t => some (p, t)
    | .setFileCall p t => some (p, t)
    | .printed _ => none

/-- The timestamps of the `touch -mt` (modification-time) calls, in order. -/
def touchTimes (evs : List Event) : List Int :=
  evs.filterMap fun e =>
    match e with
    | .touchCall _ t => some t
    | _ => none

/-- The file paths of the `touch -mt` calls, in order. -/
def touchPaths (evs : List Event) : List Str :=
  evs.filterMap fun e =>
    match e with
    | .touchCall p _ => some p
    | _ => none

/-- The events of one successfully processed file. -/
def okFileEvents (total : Nat) (p : Str) (current : Int) (i : Nat) : List Event :=
  [.touchCall p current, .setFileCall p current,
   .printed (.progress i total (basename p) current)]

/-- The events of a stretch of successfully processed files. -/
def okPrefixEvents (inc : Int) (total : Nat) : List Str → Int → Nat → List Event
  | [], _, _ => []
  | p :: rest, current, i =>
    okFileEvents total p current i ++ okPrefixEvents inc total rest (current + inc * 60) (i + 1)

/-- The events of the file whose timestamp-setting call raises
`CalledProcessError`: the attempted calls up to and including the failing
one, the error print, and the `SetFile` notes when the error message
contains `"SetFile"`. -/
def failTailEvents (env : Env) (b : Str) (tB : Int) : List Event :=
  match env.touchRes b with
  | .cpe =>
    .touchCall b tB :: .printed (.errUpdating b) ::
      (if containsSub (str "SetFile") b then [.printed .setFileNote1, .printed .setFileNote2]
       else [])
  | _ =>
    [.touchCall b tB, .setFileCall b tB, .printed (.errUpdating b),
     .printed .setFileNote1, .printed .setFileNote2]

/-! ### Concrete scenarios used as witnesses -/

def entA : Entry := ⟨str "a.jpg", true⟩
def entB : Entry := ⟨str "b.jpg", true⟩
def entC : Entry := ⟨str "c.png", true⟩

/-- A directory with three image files where every external call succeeds. -/
def envAllOk : Env := ⟨true, [entB, entA, entC], 0, fun _ => .ok, fun _ => .ok⟩

/-- Same directory, but `touch` exits non-zero on `/f/b.jpg`. -/
def envFailB : Env :=
  ⟨true, [entB, entA, entC], 0,
   fun p => if p = str "/f/b.jpg" then .cpe else .ok,
   fun _ => .ok⟩

/-- One image file, `SetFile` absent from the platform (`FileNotFoundError`). -/
def envFNF : Env := ⟨true, [entA], 0, fun _ => .ok, fun _ => .fnf⟩

/-- A directory with no matching entries. -/
def envEmpty : Env := ⟨true, [⟨str "notes.txt", true⟩, ⟨str "sub", false⟩], 0,
   fun _ => .ok, fun _ => .ok⟩

/-- A path that is not a directory. -/
def envBadDir : Env := ⟨false, [], 0, fun _ => .ok, fun _ => .ok⟩

/-! ### Lemmas: the lexicographic order and `pySort` -/

theorem strLt_irrefl : ∀ a : Str, strLt a a = false := by
  intro a
  induction a with
  | nil => rfl
  | cons c cs ih => simp [strLt, ih]

theorem strLt_asymm : ∀ a b : Str, strLt a b = true → strLt b a = false := by
  intro a
  induction a with
  | nil => intro b _; cases b <;> rfl
  | cons c cs ih =>
    intro b hab
    cases b with
    | nil => simp [strLt] at hab
    | cons d ds =>
      simp only [strLt] at hab ⊢
      by_cases h1 : c < d
      · have : ¬ d < c := by omega
        simp [h1, this]
      · by_cases h2 : d < c
        · simp [h1, h2] at hab
        · have hcd : ¬ c < d := h1
          simp [h1, h2] at hab ⊢
          exact ih ds hab

theorem strLt_total : ∀ a b : Str, strLt a b = true ∨ strLt b a = true ∨ a = b := by
  intro a
  induction a with
  | nil => intro b; cases b <;> simp [strLt]
  | cons c cs ih =>
    intro b
    cases b with
    | nil => simp [strLt]
    | cons d ds =>
      by_cases h1 : c < d
      · left; simp [strLt, h1]
      · by_cases h2 : d < c
        · right; left; simp [strLt, h2]
        · have hcd : c = d := by omega
          subst hcd
          rcases ih ds with h | h | h
          · left; simp [strLt, h]
          · right; left; simp [strLt, h]
          · right; right; simp [h]

theorem strLt_trans : ∀ a b c : Str, strLt a b = true → strLt b c = true → strLt a c = true := by
  intro a
  induction a with
  | nil =>
    intro b c hab hbc
    cases b with
    | nil => simp [strLt] at hab
    | cons d ds => cases c with
      | nil => simp [strLt] at hbc
      | cons e es => rfl
  | cons x xs ih =>
    intro b c hab hbc
    cases b with
    | nil => simp [strLt] at hab
    | cons y ys =>
      cases c with
      | nil => simp [strLt] at hbc
      | cons z zs =>
        simp only [strLt] at hab hbc ⊢
        by_cases hxy : x < y
        · by_cases hyz : y < z
          · have : x < z := by omega
            simp [this]
          · by_cases hzy : z < y
            · simp [hyz, hzy] at hbc
            · have : y = z := by omega
              subst this
              simp [hxy]
        · by_cases hyx : y < x
          · simp [hxy, hyx] at hab
          · have hxy2 : x = y := by omega
            subst hxy2
            simp only [hxy, if_neg, lt_irrefl, if_false] at hab
            by_cases hyz : x < z
            · simp [hyz]
            · by_cases hzy : z < x
              · simp [hyz, hzy] at hbc
              · simp [hyz, hzy] at hbc ⊢
                exact ih ys zs hab hbc

/-- The "does not come after" relation the sorted output satisfies. -/
def strNotGt (a b : Str) : Prop := strLt b a = false

theorem strNotGt_of_not_lt {a b : Str} (h : strLt a b = false) : strNotGt b a := h

theorem strNotGt_of_lt {a b : Str} (h : strLt a b = true) : strNotGt a b :=
  strLt_asymm a b h

theorem strNotGt_trans : ∀ {a b c : Str}, strNotGt a b → strNotGt b c → strNotGt a c := by
  intro a b c hab hbc
  unfold strNotGt at hab hbc ⊢
  by_contra h
  have hca : strLt c a = true := by
    cases hlt : strLt c a
    · exact absurd hlt h
    · rfl
  rcases strLt_total a b with h1 | h1 | h1
  · have := strLt_trans c a b hca h1
    rw [this] at hbc
    exact Bool.noConfusion hbc
  · rw [h1] at hab
    exact Bool.noConfusion hab
  · subst h1
    rw [hca] at hbc
    exact Bool.noConfusion hbc

theorem strNotGt_total : ∀ a b : Str, strNotGt a b ∨ strNotGt b a := by
  intro a b
  rcases strLt_total a b with h | h | h
  · exact Or.inl (strNotGt_of_lt h)
  · exact Or.inr (strNotGt_of_lt h)
  · subst h
    exact Or.inl (strNotGt_of_not_lt (strLt_irrefl a))

theorem insertSorted_perm (x : Str) (l : List Str) :
    (insertSorted x l).Perm (x :: l) := by
  induction l with
  | nil => exact List.Perm.refl _
  | cons y ys ih =>
    by_cases h : strLt x y = true
    · simp [insertSorted, h]
    · rw [insertSorted, if_neg h]
      exact List.Perm.trans (List.Perm.cons y ih) (List.Perm.swap x y ys)

theorem insertSorted_mem {p x : Str} {l : List Str} (h : p ∈ insertSorted x l) :
    p = x ∨ p ∈ l := by
  have := (insertSorted_perm x l).mem_iff.mp h
  simpa using this

theorem insertSorted_pairwise {x : Str} {l : List Str}
    (h : l.Pairwise strNotGt) : (insertSorted x l).Pairwise strNotGt := by
  induction l with
  | nil => simp [insertSorted]
  | cons y ys ih =>
    rcases List.pairwise_cons.mp h with ⟨hy, hys⟩
    by_cases hlt : strLt x y = true
    · rw [insertSorted, if_pos hlt]
      refine List.pairwise_cons.mpr ⟨?_, h⟩
      intro z hz
      rcases List.mem_cons.mp hz with hz | hz
      · subst hz; exact strNotGt_of_lt hlt
      · exact strNotGt_trans (strNotGt_of_lt hlt) (hy z hz)
    · have hxle : strNotGt y x := strNotGt_of_not_lt (by simpa using hlt)
      rw [insertSorted, if_neg hlt]
      refine List.pairwise_cons.mpr ⟨?_, ih hys⟩
      intro z hz
      rcases insertSorted_mem hz with hz | hz
      · subst hz; exact hxle
      · exact hy z hz

theorem pySort_perm (l : List Str) : (pySort l).Perm l := by
  induction l with
  | nil => exact List.Perm.refl _
  | cons x xs ih =>
    exact List.Perm.trans (insertSorted_perm x (pySort xs)) (List.Perm.cons x ih)

theorem pySort_pairwise (l : List Str) : (pySort l).Pairwise strNotGt := by
  induction l with
  | nil => simp [pySort]
  | cons x xs ih => exact insertSorted_pairwise ih

theorem pySort_mem {p : Str} {l : List Str} : p ∈ pySort l ↔ p ∈ l :=
  (pySort_perm l).mem_iff

/-! ### Lemmas: the assignment loop -/

theorem processFiles_all_ok (env : Env) (inc : Int) (total : Nat) (l : List Str) :
    ∀ (cur : Int) (i : Nat),
      (∀ p ∈ l, env.touchRes p = .ok ∧ env.setFileRes p = .ok) →
      processFiles env inc total l cur i = (okPrefixEvents inc total l cur i, .returned) := by
  induction l with
  | nil => intro cur i _; rfl
  | cons p rest ih =>
    intro cur i h
    have hp := h p (by simp)
    have hr := ih (cur + inc * 60) (i + 1) (fun q hq => h q (by simp [hq]))
    simp [processFiles, hp.1, hp.2, okPrefixEvents, okFileEvents, hr]

theorem processFiles_append (env : Env) (inc : Int) (total : Nat) (pre : List Str) :
    ∀ (rest : List Str) (cur : Int) (i : Nat),
      (∀ p ∈ pre, env.touchRes p = .ok ∧ env.setFileRes p = .ok) →
      processFiles env inc total (pre ++ rest) cur i =
        (okPrefixEvents inc total pre cur i ++
            (processFiles env inc total rest (cur + (pre.length : Int) * (inc * 60))
              (i + pre.length)).1,
          (processFiles env inc total rest (cur + (pre.length : Int) * (inc * 60))
            (i + pre.length)).2) := by
  induction pre with
  | nil =>
    intro rest cur i _
    simp [okPrefixEvents]
  | cons p pr ih =>
    intro rest cur i h
    have hp := h p (by simp)
    have hr := ih rest (cur + inc * 60) (i + 1) (fun q hq => h q (by simp [hq]))
    have hidx : i + 1 + pr.length = i + (pr.length + 1) := by omega
    have harith : cur + inc * 60 + (pr.length : Int) * (inc * 60) =
        cur + ((pr.length + 1 : Nat) : Int) * (inc * 60) := by push_cast; ring
    simp only [List.cons_append, processFiles, hp.1, hp.2, okPrefixEvents, okFileEvents,
      List.length_cons]
    simp only [List.append_eq]
    rw [hr, harith, hidx]
    simp

theorem touchTimes_append (a b : List Event) :
    touchTimes (a ++ b) = touchTimes a ++ touchTimes b := by
  simp [touchTimes]

theorem touchPaths_append (a b : List Event) :
    touchPaths (a ++ b) = touchPaths a ++ touchPaths b := by
  simp [touchPaths]

theorem tsCalls_append (a b : List Event) :
    tsCalls (a ++ b) = tsCalls a ++ tsCalls b := by
  simp [tsCalls]

theorem map_assign_succ (cur inc : Int) (n : Nat) :
    (List.range (n + 1)).map (fun j : Nat => cur + (j : Int) * (inc * 60)) =
      cur :: (List.range n).map (fun j : Nat => (cur + inc * 60) + (j : Int) * (inc * 60)) := by
  rw [List.range_succ_eq_map, List.map_cons, List.map_map]
  refine congrArg₂ List.cons (by simp) (List.map_congr_left ?_)
  intro j _
  simp only [Function.comp_apply]
  push_cast
  ring

theorem touchTimes_okPrefixEvents (inc : Int) (total : Nat) (l : List Str) :
    ∀ (cur : Int) (i : Nat),
      touchTimes (okPrefixEvents inc total l cur i) =
        (List.range l.length).map (fun j : Nat => cur + (j : Int) * (inc * 60)) := by
  induction l with
  | nil => intro cur i; rfl
  | cons p rest ih =>
    intro cur i
    rw [okPrefixEvents, touchTimes_append, ih, List.length_cons, map_assign_succ]
    rfl

theorem touchPaths_okPrefixEvents (inc : Int) (total : Nat) (l : List Str) :
    ∀ (cur : Int) (i : Nat), touchPaths (okPrefixEvents inc total l cur i) = l := by
  induction l with
  | nil => intro cur i; rfl
  | cons p rest ih =>
    intro cur i
    rw [okPrefixEvents, touchPaths_append, ih]
    simp [okFileEvents, touchPaths]

theorem okPrefixEvents_call_targets (inc : Int) (total : Nat) (l : List Str) :
    ∀ (cur : Int) (i : Nat) (p : Str) (t : Int),
      (Event.touchCall p t ∈ okPrefixEvents inc total l cur i ∨
        Event.setFileCall p t ∈ okPrefixEvents inc total l cur i) → p ∈ l := by
  induction l with
  | nil => intro cur i p t h; simp [okPrefixEvents] at h
  | cons q rest ih =>
    intro cur i p t h
    rcases h with h | h
    · rw [okPrefixEvents] at h
      rcases List.mem_append.mp h with h1 | h1
      · simp only [okFileEvents, List.mem_cons, List.not_mem_nil, or_false] at h1
        rcases h1 with h1 | h1 | h1
        · rw [Event.touchCall.injEq] at h1
          simp [h1.1]
        · exact absurd h1 (by simp)
        · exact absurd h1 (by simp)
      · exact List.mem_cons_of_mem q (ih (cur + inc * 60) (i + 1) p t (Or.inl h1))
    · rw [okPrefixEvents] at h
      rcases List.mem_append.mp h with h1 | h1
      · simp only [okFileEvents, List.mem_cons, List.not_mem_nil, or_false] at h1
        rcases h1 with h1 | h1 | h1
        · exact absurd h1 (by simp)
        · rw [Event.setFileCall.injEq] at h1
          simp [h1.1]
        · exact absurd h1 (by simp)
      · exact List.mem_cons_of_mem q (ih (cur + inc * 60) (i + 1) p t (Or.inr h1))

theorem okPrefixEvents_calls_present (inc : Int) (total : Nat) (l : List Str) :
    ∀ (cur : Int) (i : Nat) (j : Nat) (hj : j < l.length),
      Event.touchCall (l.get ⟨j, hj⟩) (cur + (j : Int) * (inc * 60)) ∈
          okPrefixEvents inc total l cur i ∧
        Event.setFileCall (l.get ⟨j, hj⟩) (cur + (j : Int) * (inc * 60)) ∈
          okPrefixEvents inc total l cur i := by
  induction l with
  | nil => intro cur i j hj; exact absurd hj (by simp)
  | cons q rest ih =>
    intro cur i j hj
    cases j with
    | zero =>
      simp [okPrefixEvents, okFileEvents]
    | succ k =>
      have hk : k < rest.length := by simpa using hj
      have := ih (cur + inc * 60) (i + 1) k hk
      have harith : cur + inc * 60 + (k : Int) * (inc * 60) =
          cur + ((k + 1 : Nat) : Int) * (inc * 60) := by push_cast; ring
      rw [harith] at this
      constructor
      · exact List.mem_append_right _ this.1
      · exact List.mem_append_right _ this.2

/-! ### Lemmas: the branches of `update_image_dates` -/

theorem update_not_dir (env : Env) (folder : Str) (sd : StartDate) (inc : Int)
    (exts : Option (List Str)) (hdir : env.isdir = false) :
    update_image_dates env folder sd inc exts = ([.printed .errNotDir], .returned) := by
  simp [update_image_dates, hdir]

theorem update_bad_inc (env : Env) (folder : Str) (sd : StartDate) (inc : Int)
    (exts : Option (List Str)) (hdir : env.isdir = true) (hinc : inc ≤ 0) :
    update_image_dates env folder sd inc exts = ([.printed .errIncrement], .returned) := by
  simp [update_image_dates, hdir, hinc]

theorem update_no_files (env : Env) (folder : Str) (sd : StartDate) (inc : Int)
    (exts : Option (List Str)) (hdir : env.isdir = true) (hinc : 0 < inc)
    (hempty : sortedImageFiles env folder exts = []) :
    update_image_dates env folder sd inc exts = ([.printed .noFiles], .returned) := by
  have h1 : ¬ inc ≤ 0 := by omega
  simp [update_image_dates, hdir, h1, hempty]

theorem update_bad_parse (env : Env) (folder : Str) (inc : Int)
    (exts : Option (List Str)) (v : Str) (hdir : env.isdir = true) (hinc : 0 < inc)
    (hne : sortedImageFiles env folder exts ≠ [])
    (hparse : strptimeYmdHms v = Option.none) :
    update_image_dates env folder (.text v) inc exts = ([.printed .invalidDate], .returned) := by
  have h1 : ¬ inc ≤ 0 := by omega
  simp [update_image_dates, hdir, h1, hne, resolveStart, hparse]

theorem update_main (env : Env) (folder : Str) (sd : StartDate) (inc : Int)
    (exts : Option (List Str)) (start : Int) (hdir : env.isdir = true) (hinc : 0 < inc)
    (hstart : resolveStart env sd = some start)
    (hne : sortedImageFiles env folder exts ≠ []) :
    update_image_dates env folder sd inc exts =
      ([.printed (.found (sortedImageFiles env folder exts).length),
        .printed (.startingDate start), .printed (.increment inc)] ++
          (processFiles env inc (sortedImageFiles env folder exts).length
            (sortedImageFiles env folder exts) start 1).1,
        (processFiles env inc (sortedImageFiles env folder exts).length
          (sortedImageFiles env folder exts) start 1).2) := by
  have h1 : ¬ inc ≤ 0 := by omega
  simp [update_image_dates, hdir, h1, hne, hstart]

theorem processFiles_fail (env : Env) (inc : Int) (total : Nat) (b : Str) (post : List Str)
    (cur : Int) (i : Nat)
    (hfail : env.touchRes b = .cpe ∨ (env.touchRes b = .ok ∧ env.setFileRes b = .cpe)) :
    processFiles env inc total (b :: post) cur i = (failTailEvents env b cur, .returned) := by
  rcases hfail with h | ⟨h1, h2⟩
  · by_cases hc : containsSub (str "SetFile") b = true
    · simp [processFiles, h, failTailEvents, hc]
    · simp [processFiles, h, failTailEvents, hc]
  · simp [processFiles, h1, h2, failTailEvents]

theorem processFiles_head (env : Env) (inc : Int) (total : Nat) (f : Str) (rest : List Str)
    (cur : Int) (i : Nat) :
    ∃ tail, (processFiles env inc total (f :: rest) cur i).1 =
      Event.touchCall f cur :: tail := by
  cases h1 : env.touchRes f with
  | fnf => exact ⟨[], by simp [processFiles, h1]⟩
  | cpe =>
    by_cases hc : containsSub (str "SetFile") f = true
    · exact ⟨[.printed (.errUpdating f), .printed .setFileNote1, .printed .setFileNote2],
        by simp [processFiles, h1, hc]⟩
    · exact ⟨[.printed (.errUpdating f)], by simp [processFiles, h1, hc]⟩
  | ok =>
    cases h2 : env.setFileRes f with
    | fnf => exact ⟨[.setFileCall f cur], by simp [processFiles, h1, h2]⟩
    | cpe =>
      exact ⟨[.setFileCall f cur, .printed (.errUpdating f), .printed .setFileNote1,
        .printed .setFileNote2], by simp [processFiles, h1, h2]⟩
    | ok =>
      exact ⟨.setFileCall f cur :: .printed (.progress i total (basename f) cur) ::
        (processFiles env inc total rest (cur + inc * 60) (i + 1)).1,
        by simp [processFiles, h1, h2]⟩

theorem failTail_errUpdating_mem (env : Env) (b : Str) (t : Int) :
    Event.printed (.errUpdating b) ∈ failTailEvents env b t := by
  unfold failTailEvents
  cases env.touchRes b <;> simp

theorem failTail_call_targets (env : Env) (b : Str) (t : Int) (p : Str) (tt : Int)
    (h : Event.touchCall p tt ∈ failTailEvents env b t ∨
      Event.setFileCall p tt ∈ failTailEvents env b t) : p = b := by
  unfold failTailEvents at h
  cases hres : env.touchRes b
  case cpe =>
    rw [hres] at h
    by_cases hc : containsSub (str "SetFile") b = true <;> simp [hc] at h <;> tauto
  case ok =>
    rw [hres] at h
    simp at h
    tauto
  case fnf =>
    rw [hres] at h
    simp at h
    tauto

theorem touchPaths_mem (evs : List Event) (p : Str) :
    p ∈ touchPaths evs ↔ ∃ t, Event.touchCall p t ∈ evs := by
  unfold touchPaths
  rw [List.mem_filterMap]
  constructor
  · rintro ⟨e, he, hsome⟩
    cases e with
    | touchCall q t =>
      simp only [Option.some.injEq] at hsome
      exact ⟨t, hsome ▸ he⟩
    | setFileCall q t => simp at hsome
    | printed m => simp at hsome
  · rintro ⟨t, ht⟩
    exact ⟨Event.touchCall p t, ht, rfl⟩

theorem touchPaths_all_ok (env : Env) (folder : Str) (sd : StartDate) (inc : Int)
    (exts : Option (List Str)) (start : Int)
    (hdir : env.isdir = true) (hinc : 0 < inc)
    (hstart : resolveStart env sd = some start)
    (hok : ∀ p ∈ sortedImageFiles env folder exts,
      env.touchRes p = .ok ∧ env.setFileRes p = .ok) :
    touchPaths (update_image_dates env folder sd inc exts).1 =
      sortedImageFiles env folder exts := by
  by_cases hne : sortedImageFiles env folder exts = []
  · rw [update_no_files env folder sd inc exts hdir hinc hne, hne]
    rfl
  · rw [update_main env folder sd inc exts start hdir hinc hstart hne]
    rw [processFiles_all_ok env inc _ _ start 1 hok]
    rw [touchPaths_append, touchPaths_okPrefixEvents]
    rfl

theorem getD_range_map (f : Nat → Int) (n i : Nat) (h : i < n) :
    ((List.range n).map f).getD i 0 = f i := by
  rw [List.getD_eq_getElem?_getD, List.getElem?_map, List.getElem?_range h]
  rfl

theorem rfindDot_eq_none (s : Str) (h : ¬ 46 ∈ s) : rfindDot s = none := by
  induction s with
  | nil => rfl
  | cons c cs ih =>
    have hc : ¬ c = 46 := fun hh => h (by simp [hh])
    have hcs : ¬ 46 ∈ cs := fun hh => h (by simp [hh])
    simp [rfindDot, ih hcs, hc]

theorem splitextName_leading_dot (s : Str) (h : ¬ 46 ∈ s) :
    splitextName (46 :: s) = (46 :: s, []) := by
  simp [splitextName, rfindDot, rfindDot_eq_none s h]

theorem lowerChar_not_upper (c : Nat) : ¬ (65 ≤ lowerChar c ∧ lowerChar c ≤ 90) := by
  unfold lowerChar
  split <;> omega

theorem lowerStr_ne_of_upper (ent : Str) (hc : ∃ c ∈ ent, 65 ≤ c ∧ c ≤ 90) (x : Str) :
    lowerStr x ≠ ent := by
  intro he
  rcases hc with ⟨c, hmem, hup⟩
  rw [← he] at hmem
  rcases List.mem_map.mp hmem with ⟨d, _, hd⟩
  exact lowerChar_not_upper d (hd ▸ hup)

theorem collectFiles_empty_of_upper (folder : Str) (entries : List Entry) (exts : List Str)
    (hup : ∀ ent ∈ exts, ∃ c ∈ ent, 65 ≤ c ∧ c ≤ 90) :
    collectFiles folder entries exts = [] := by
  unfold collectFiles
  have hfil : entries.filter (matchesFilter exts) = [] := by
    rw [List.filter_eq_nil_iff]
    intro e _
    unfold matchesFilter
    simp only [Bool.and_eq_true, decide_eq_true_eq, not_and]
    intro _ hmem
    rcases hup _ hmem with ⟨c, hcm, hcu⟩
    rcases List.mem_map.mp hcm with ⟨d, _, hd⟩
    exact lowerChar_not_upper d (hd ▸ hcu)
  rw [hfil]
  rfl

/-! ### The claims -/

/-- Claim C1: for every run that completes successfully, the modification
timestamp assigned to the file at sorted position `i` (0-based) is exactly
`start + i * increment_minutes` (in minutes, i.e. `i * (inc * 60)` seconds),
the run returns normally, and consecutive assigned timestamps differ by
exactly `increment_minutes` minutes. -/
theorem claim_c1_even_spacing (env : Env) (folder : Str) (sd : StartDate) (inc : Int)
    (exts : Option (List Str)) (start : Int)
    (hdir : env.isdir = true) (hinc : 0 < inc)
    (hstart : resolveStart env sd = some start)
    (hok : ∀ p ∈ sortedImageFiles env folder exts,
      env.touchRes p = .ok ∧ env.setFileRes p = .ok) :
    touchTimes (update_image_dates env folder sd inc exts).1 =
      (List.range (sortedImageFiles env folder exts).length).map
        (fun i : Nat => start + (i : Int) * (inc * 60)) ∧
    (update_image_dates env folder sd inc exts).2 = .returned ∧
    ∀ i : Nat, i + 1 < (sortedImageFiles env folder exts).length →
      (touchTimes (update_image_dates env folder sd inc exts).1).getD (i + 1) 0 -
        (touchTimes (update_image_dates env folder sd inc exts).1).getD i 0 = inc * 60 := by
  have htt : touchTimes (update_image_dates env folder sd inc exts).1 =
      (List.range (sortedImageFiles env folder exts).length).map
        (fun i : Nat => start + (i : Int) * (inc * 60)) := by
    by_cases hne : sortedImageFiles env folder exts = []
    · rw [update_no_files env folder sd inc exts hdir hinc hne, hne]
      rfl
    · rw [update_main env folder sd inc exts start hdir hinc hstart hne]
      rw [processFiles_all_ok env inc _ _ start 1 hok]
      rw [touchTimes_append, touchTimes_okPrefixEvents]
      rfl
  have hret : (update_image_dates env folder sd inc exts).2 = .returned := by
    by_cases hne : sortedImageFiles env folder exts = []
    · rw [update_no_files env folder sd inc exts hdir hinc hne]
    · rw [update_main env folder sd inc exts start hdir hinc hstart hne]
      rw [processFiles_all_ok env inc _ _ start 1 hok]
  refine ⟨htt, hret, ?_⟩
  intro i hi
  rw [htt, getD_range_map _ _ _ hi, getD_range_map _ _ _ (by omega)]
  push_cast
  ring

/-- Witness for C1: three files, start `0`, increment `60` minutes — the
assigned modification timestamps are `0`, `3600`, `7200` seconds. -/
theorem claim_c1_even_spacing_witness :
    (∀ p ∈ sortedImageFiles envAllOk (str "/f") Option.none,
      envAllOk.touchRes p = .ok ∧ envAllOk.setFileRes p = .ok) ∧
    touchTimes (update_image_dates envAllOk (str "/f") (.dt 0) 60 Option.none).1 =
      [0, 3600, 7200] := by
  refine ⟨fun p _ => ⟨rfl, rfl⟩, ?_⟩
  have h := claim_c1_even_spacing envAllOk (str "/f") (.dt 0) 60 Option.none 0
    rfl (by omega) rfl (fun p _ => ⟨rfl, rfl⟩)
  rw [h.1]
  decide

/-- Claim C3 is a code bug, not a property of the code: when the external
timestamp-setting capability is absent (the `SetFile` — or `touch` —
executable is missing), `subprocess.run` raises `FileNotFoundError`,
which `except subprocess.CalledProcessError` does not catch, so the
exception propagates to the caller instead of being reported.  This
theorem evaluates the embedded code at such an input. -/
theorem claim_c3_raises_on_missing_capability :
    (update_image_dates envFNF (str "/f") (.dt 0) 60 Option.none).2 = .raisedFNF := by
  decide

/-- Claim C6: with a non-directory folder or a non-positive increment, the
run performs no timestamp-setting call, reports exactly one config error
message, and returns. -/
theorem claim_c6_config_fail_fast (env : Env) (folder : Str) (sd : StartDate) (inc : Int)
    (exts : Option (List Str)) (h : env.isdir = false ∨ inc ≤ 0) :
    tsCalls (update_image_dates env folder sd inc exts).1 = [] ∧
    (update_image_dates env folder sd inc exts).2 = .returned ∧
    ((update_image_dates env folder sd inc exts).1 = [.printed .errNotDir] ∨
      (update_image_dates env folder sd inc exts).1 = [.printed .errIncrement]) := by
  rcases h with h | h
  · rw [update_not_dir env folder sd inc exts h]
    exact ⟨rfl, rfl, Or.inl rfl⟩
  · cases hdir : env.isdir
    · rw [update_not_dir env folder sd inc exts hdir]
      exact ⟨rfl, rfl, Or.inl rfl⟩
    · rw [update_bad_inc env folder sd inc exts hdir h]
      exact ⟨rfl, rfl, Or.inr rfl⟩

/-- Witness for C6: a zero increment on a valid directory touches nothing
and reports a config error. -/
theorem claim_c6_config_fail_fast_witness :
    ((0 : Int) ≤ 0) ∧
    tsCalls (update_image_dates envAllOk (str "/f") (.dt 0) 0 Option.none).1 = [] ∧
    (update_image_dates envAllOk (str "/f") (.dt 0) 0 Option.none).2 = .returned := by
  have h := claim_c6_config_fail_fast envAllOk (str "/f") (.dt 0) 0 Option.none
    (Or.inr (by omega))
  exact ⟨by omega, h.1, h.2.1⟩

/-- Claim C8: a run on a directory with no matching files performs zero
timestamp-setting calls, prints the informational "no files found"
message, and returns cleanly. -/
theorem claim_c8_empty_noop (env : Env) (folder : Str) (sd : StartDate) (inc : Int)
    (exts : Option (List Str)) (hdir : env.isdir = true) (hinc : 0 < inc)
    (hempty : collectFiles folder env.entries (exts.getD IMAGE_EXTENSIONS) = []) :
    update_image_dates env folder sd inc exts = ([.printed .noFiles], .returned) ∧
    tsCalls (update_image_dates env folder sd inc exts).1 = [] := by
  have hs : sortedImageFiles env folder exts = [] := by
    unfold sortedImageFiles
    rw [hempty]
    rfl
  rw [update_no_files env folder sd inc exts hdir hinc hs]
  exact ⟨rfl, rfl⟩

/-- Witness for C8: a directory holding only `notes.txt` and a
subdirectory is a clean no-op. -/
theorem claim_c8_empty_noop_witness :
    collectFiles (str "/f") envEmpty.entries
      ((Option.none : Option (List Str)).getD IMAGE_EXTENSIONS) = [] ∧
    update_image_dates envEmpty (str "/f") (.dt 0) 60 Option.none =
      ([.printed .noFiles], .returned) := by
  refine ⟨by decide, ?_⟩
  exact (claim_c8_empty_noop envEmpty (str "/f") (.dt 0) 60 Option.none rfl (by omega)
    (by decide)).1

/-- Claim C2: if the timestamp-setting call for `b` (the modification-time
call, or the creation-time call after a successful modification-time call)
fails with `CalledProcessError` while every file before `b` in sorted
order succeeded, then the whole trace is: the header prints, the complete
update events of every file before `b`, and the failure tail for `b` —
so every earlier file has been updated, an error is reported for `b`, the
run ends immediately (normal return, no further events), and no
timestamp-setting call ever targets any file other than the already
updated ones and `b` itself. -/
theorem claim_c2_abort_on_failure (env : Env) (folder : Str) (sd : StartDate) (inc : Int)
    (exts : Option (List Str)) (start : Int) (pre post : List Str) (b : Str)
    (hdir : env.isdir = true) (hinc : 0 < inc)
    (hstart : resolveStart env sd = some start)
    (hsplit : sortedImageFiles env folder exts = pre ++ b :: post)
    (hpre : ∀ p ∈ pre, env.touchRes p = .ok ∧ env.setFileRes p = .ok)
    (hfail : env.touchRes b = .cpe ∨ (env.touchRes b = .ok ∧ env.setFileRes b = .cpe)) :
    (update_image_dates env folder sd inc exts).1 =
      [.printed (.found (pre ++ b :: post).length), .printed (.startingDate start),
        .printed (.increment inc)] ++
        okPrefixEvents inc (pre ++ b :: post).length pre start 1 ++
        failTailEvents env b (start + (pre.length : Int) * (inc * 60)) ∧
    (update_image_dates env folder sd inc exts).2 = .returned ∧
    Event.printed (.errUpdating b) ∈ (update_image_dates env folder sd inc exts).1 ∧
    (∀ (j : Nat) (hj : j < pre.length),
      Event.touchCall (pre.get ⟨j, hj⟩) (start + (j : Int) * (inc * 60)) ∈
          (update_image_dates env folder sd inc exts).1 ∧
        Event.setFileCall (pre.get ⟨j, hj⟩) (start + (j : Int) * (inc * 60)) ∈
          (update_image_dates env folder sd inc exts).1) ∧
    (∀ (p : Str) (t : Int),
      (Event.touchCall p t ∈ (update_image_dates env folder sd inc exts).1 ∨
        Event.setFileCall p t ∈ (update_image_dates env folder sd inc exts).1) →
      p ∈ pre ∨ p = b) := by
  have hne : sortedImageFiles env folder exts ≠ [] := by
    rw [hsplit]
    simp
  have hmain := update_main env folder sd inc exts start hdir hinc hstart hne
  rw [hsplit] at hmain
  rw [processFiles_append env inc (pre ++ b :: post).length pre (b :: post) start 1 hpre] at hmain
  rw [processFiles_fail env inc (pre ++ b :: post).length b post
    (start + (pre.length : Int) * (inc * 60)) (1 + pre.length) hfail] at hmain
  have hevs : (update_image_dates env folder sd inc exts).1 =
      [.printed (.found (pre ++ b :: post).length), .printed (.startingDate start),
        .printed (.increment inc)] ++
        okPrefixEvents inc (pre ++ b :: post).length pre start 1 ++
        failTailEvents env b (start + (pre.length : Int) * (inc * 60)) := by
    rw [hmain]
    simp
  have hret : (update_image_dates env folder sd inc exts).2 = .returned := by
    rw [hmain]
  refine ⟨hevs, hret, ?_, ?_, ?_⟩
  · rw [hevs]
    exact List.mem_append_right _ (failTail_errUpdating_mem env b _)
  · intro j hj
    have hcalls := okPrefixEvents_calls_present inc (pre ++ b :: post).length pre start 1 j hj
    rw [hevs]
    constructor
    · exact List.mem_append_left _ (List.mem_append_right _ hcalls.1)
    · exact List.mem_append_left _ (List.mem_append_right _ hcalls.2)
  · intro p t h
    rw [hevs] at h
    rcases h with h | h
    · rcases List.mem_append.mp h with h1 | h1
      · rcases List.mem_append.mp h1 with h2 | h2
        · simp at h2
        · exact Or.inl (okPrefixEvents_call_targets inc _ pre start 1 p t (Or.inl h2))
      · exact Or.inr (failTail_call_targets env b _ p t (Or.inl h1))
    · rcases List.mem_append.mp h with h1 | h1
      · rcases List.mem_append.mp h1 with h2 | h2
        · simp at h2
        · exact Or.inl (okPrefixEvents_call_targets inc _ pre start 1 p t (Or.inr h2))
      · exact Or.inr (failTail_call_targets env b _ p t (Or.inr h1))

/-- Witness for C2: the `touch` call for `/f/b.jpg` fails; the error for
that file is reported, and `/f/a.jpg` (the only earlier file) was updated. -/
theorem claim_c2_abort_on_failure_witness :
    envFailB.touchRes (str "/f/b.jpg") = .cpe ∧
    Event.printed (.errUpdating (str "/f/b.jpg")) ∈
      (update_image_dates envFailB (str "/f") (.dt 0) 60 Option.none).1 := by
  refine ⟨by decide, ?_⟩
  exact (claim_c2_abort_on_failure envFailB (str "/f") (.dt 0) 60 Option.none 0
    [str "/f/a.jpg"] [str "/f/c.png"] (str "/f/b.jpg")
    rfl (by omega) rfl (by decide) (by decide) (Or.inl (by decide))).2.2.1

/-- Claim C4: the order that determines timestamp assignment is ascending
case-sensitive code-point lexicographic comparison of the full path
strings: the sort output is pairwise non-descending under `strLt` and a
permutation of its input; `"img9.jpg"` sorts after `"img10.jpg"`; the
comparison is case-sensitive (uppercase before lowercase); and in a
successful run the files are processed exactly in the sorted order of the
full joined paths. -/
theorem claim_c4_lexicographic_order :
    (∀ l : List Str, (pySort l).Pairwise strNotGt ∧ (pySort l).Perm l) ∧
    strLt (str "/f/img10.jpg") (str "/f/img9.jpg") = true ∧
    strLt (str "/f/IMG.jpg") (str "/f/img.jpg") = true ∧
    (∀ (env : Env) (folder : Str) (sd : StartDate) (inc : Int)
      (exts : Option (List Str)) (start : Int),
      env.isdir = true → 0 < inc → resolveStart env sd = some start →
      (∀ p ∈ sortedImageFiles env folder exts,
        env.touchRes p = .ok ∧ env.setFileRes p = .ok) →
      touchPaths (update_image_dates env folder sd inc exts).1 =
        pySort ((env.entries.filter (matchesFilter (exts.getD IMAGE_EXTENSIONS))).map
          (fun e => joinPath folder e.name))) := by
  refine ⟨fun l => ⟨pySort_pairwise l, pySort_perm l⟩, by decide, by decide, ?_⟩
  intro env folder sd inc exts start hdir hinc hstart hok
  exact touchPaths_all_ok env folder sd inc exts start hdir hinc hstart hok

/-- Witness for C4: the three files are processed in ascending
lexicographic full-path order `a.jpg, b.jpg, c.png`. -/
theorem claim_c4_lexicographic_order_witness :
    touchPaths (update_image_dates envAllOk (str "/f") (.dt 0) 60 Option.none).1 =
      pySort ((envAllOk.entries.filter
        (matchesFilter ((Option.none : Option (List Str)).getD IMAGE_EXTENSIONS))).map
          (fun e => joinPath (str "/f") e.name)) ∧
    touchPaths (update_image_dates envAllOk (str "/f") (.dt 0) 60 Option.none).1 =
      [str "/f/a.jpg", str "/f/b.jpg", str "/f/c.png"] := by
  refine ⟨claim_c4_lexicographic_order.2.2.2 envAllOk (str "/f") (.dt 0) 60 Option.none 0
    rfl (by omega) rfl (fun p _ => ⟨rfl, rfl⟩), by decide⟩

/-- Claim C5: in a successful run, a path receives a timestamp-setting
call iff it is the joined path of a scanned entry that is a regular file
whose lowercased extension belongs to the active extension set; and when
the caller supplies no set, the active set is exactly
`{.jpg, .jpeg, .png, .tiff, .tif, .heic, .nef, .cr2, .arw}`. -/
theorem claim_c5_filter :
    (∀ (env : Env) (folder : Str) (sd : StartDate) (inc : Int)
      (exts : Option (List Str)) (start : Int),
      env.isdir = true → 0 < inc → resolveStart env sd = some start →
      (∀ p ∈ sortedImageFiles env folder exts,
        env.touchRes p = .ok ∧ env.setFileRes p = .ok) →
      ∀ p : Str,
        (∃ t, Event.touchCall p t ∈ (update_image_dates env folder sd inc exts).1) ↔
          ∃ e ∈ env.entries, e.isFile = true ∧
            lowerStr (splitextName e.name).2 ∈ exts.getD IMAGE_EXTENSIONS ∧
            p = joinPath folder e.name) ∧
    IMAGE_EXTENSIONS = [str ".jpg", str ".jpeg", str ".png", str ".tiff", str ".tif",
      str ".heic", str ".nef", str ".cr2", str ".arw"] := by
  refine ⟨?_, rfl⟩
  intro env folder sd inc exts start hdir hinc hstart hok p
  rw [← touchPaths_mem, touchPaths_all_ok env folder sd inc exts start hdir hinc hstart hok]
  unfold sortedImageFiles
  rw [pySort_mem]
  unfold collectFiles
  simp only [List.mem_map, List.mem_filter, matchesFilter, Bool.and_eq_true, decide_eq_true_eq]
  constructor
  · rintro ⟨e, ⟨he, hf, hm⟩, hp⟩
    exact ⟨e, he, hf, hm, hp.symm⟩
  · rintro ⟨e, he, hf, hm, hp⟩
    exact ⟨e, ⟨he, hf, hm⟩, hp.symm⟩

/-- Witness for C5: `/f/a.jpg` is processed, and the characterization
holds for it with the default extension set. -/
theorem claim_c5_filter_witness :
    (∃ t, Event.touchCall (str "/f/a.jpg") t ∈
      (update_image_dates envAllOk (str "/f") (.dt 0) 60 Option.none).1) ↔
    (∃ e ∈ envAllOk.entries, e.isFile = true ∧
      lowerStr (splitextName e.name).2 ∈
        (Option.none : Option (List Str)).getD IMAGE_EXTENSIONS ∧
      str "/f/a.jpg" = joinPath (str "/f") e.name) :=
  claim_c5_filter.1 envAllOk (str "/f") (.dt 0) 60 Option.none 0 rfl (by omega) rfl
    (fun p _ => ⟨rfl, rfl⟩) (str "/f/a.jpg")

/-- Claim C7: a textual start date is parsed with the fixed format
`YYYY-MM-DD HH:MM:SS`; when parsing fails the run performs no
timestamp-setting call, returns normally, and (whenever the scan found
files, which is when the parse is reached) prints exactly the invalid-date
error; when no start date is given, the first file's timestamp-setting
call uses the wall-clock time `datetime.now()`. -/
theorem claim_c7_start_date :
    (∀ (env : Env) (folder : Str) (inc : Int) (exts : Option (List Str)) (v : Str),
      env.isdir = true → 0 < inc → strptimeYmdHms v = Option.none →
      tsCalls (update_image_dates env folder (.text v) inc exts).1 = [] ∧
      (update_image_dates env folder (.text v) inc exts).2 = .returned ∧
      (sortedImageFiles env folder exts ≠ [] →
        (update_image_dates env folder (.text v) inc exts).1 = [.printed .invalidDate])) ∧
    (∀ (env : Env) (folder : Str) (inc : Int) (exts : Option (List Str))
      (f : Str) (fs : List Str),
      env.isdir = true → 0 < inc → sortedImageFiles env folder exts = f :: fs →
      ∃ tail, (update_image_dates env folder .none inc exts).1 =
        [.printed (.found (f :: fs).length), .printed (.startingDate env.now),
          .printed (.increment inc)] ++ Event.touchCall f env.now :: tail) := by
  constructor
  · intro env folder inc exts v hdir hinc hparse
    by_cases hne : sortedImageFiles env folder exts = []
    · rw [update_no_files env folder (.text v) inc exts hdir hinc hne]
      exact ⟨rfl, rfl, fun h => absurd hne h⟩
    · rw [update_bad_parse env folder inc exts v hdir hinc hne hparse]
      exact ⟨rfl, rfl, fun _ => rfl⟩
  · intro env folder inc exts f fs hdir hinc hsplit
    have hne : sortedImageFiles env folder exts ≠ [] := by
      rw [hsplit]
      simp
    have hstart : resolveStart env .none = some env.now := rfl
    have hmain := update_main env folder .none inc exts env.now hdir hinc hstart hne
    rw [hsplit] at hmain
    rcases processFiles_head env inc (f :: fs).length f fs env.now 1 with ⟨tail, htail⟩
    refine ⟨tail, ?_⟩
    rw [hmain]
    simp only [htail]

/-- Witness for C7: `"not a date"` fails to parse and yields only the
invalid-date report; with no start date the first call uses `now`. -/
theorem claim_c7_start_date_witness :
    strptimeYmdHms (str "not a date") = Option.none ∧
    (update_image_dates envAllOk (str "/f") (.text (str "not a date")) 60 Option.none).1 =
      [.printed .invalidDate] ∧
    (∃ tail, (update_image_dates envAllOk (str "/f") .none 60 Option.none).1 =
      [.printed (.found 3), .printed (.startingDate envAllOk.now),
        .printed (.increment 60)] ++ Event.touchCall (str "/f/a.jpg") envAllOk.now :: tail) := by
  refine ⟨by decide, ?_, ?_⟩
  · exact (claim_c7_start_date.1 envAllOk (str "/f") 60 Option.none (str "not a date")
      rfl (by omega) (by decide)).2.2 (by decide)
  · have h := claim_c7_start_date.2 envAllOk (str "/f") 60 Option.none (str "/f/a.jpg")
      [str "/f/b.jpg", str "/f/c.png"] rfl (by omega) (by decide)
    simpa using h

/-- Claim C9: a file whose name is exactly a leading dot followed by a
listed suffix with no other dot (such as `.jpg`) is excluded: the
extension split treats the whole name as the root and yields the empty
extension, which is in neither the default set nor any set without the
empty string. -/
theorem claim_c9_bare_dot_name (s : Str) (b : Bool) (exts : List Str)
    (hnod : ¬ 46 ∈ s) (_hlisted : (46 :: s) ∈ exts) (hnoempty : ¬ ([] : Str) ∈ exts) :
    splitextName (46 :: s) = (46 :: s, []) ∧
    matchesFilter exts ⟨46 :: s, b⟩ = false ∧
    ¬ ([] : Str) ∈ IMAGE_EXTENSIONS := by
  have hsp := splitextName_leading_dot s hnod
  refine ⟨hsp, ?_, by decide⟩
  unfold matchesFilter
  simp [hsp, lowerStr, hnoempty]

/-- Witness for C9: a file named exactly `.jpg` is excluded under the
default extension set even though `.jpg` is listed. -/
theorem claim_c9_bare_dot_name_witness :
    ¬ 46 ∈ str "jpg" ∧ (46 :: str "jpg") ∈ IMAGE_EXTENSIONS ∧
    matchesFilter IMAGE_EXTENSIONS ⟨46 :: str "jpg", true⟩ = false := by
  refine ⟨by decide, by decide, ?_⟩
  exact (claim_c9_bare_dot_name (str "jpg") true IMAGE_EXTENSIONS (by decide) (by decide)
    (by decide)).2.1

/-- Claim C10: the file's extension is lowercased before the membership
test while the caller's set is used exactly as given, so a set entry
containing an uppercase ASCII letter can never match any file's lowered
extension, and an override set all of whose entries contain one (such as
`{'.JPG'}`) makes the scan yield the empty-input outcome. -/
theorem claim_c10_uppercase_override :
    (∀ ent : Str, (∃ c ∈ ent, 65 ≤ c ∧ c ≤ 90) → ∀ x : Str, lowerStr x ≠ ent) ∧
    (∀ (env : Env) (folder : Str) (sd : StartDate) (inc : Int) (exts : List Str),
      env.isdir = true → 0 < inc →
      (∀ ent ∈ exts, ∃ c ∈ ent, 65 ≤ c ∧ c ≤ 90) →
      update_image_dates env folder sd inc (some exts) =
        ([.printed .noFiles], .returned)) := by
  refine ⟨lowerStr_ne_of_upper, ?_⟩
  intro env folder sd inc exts hdir hinc hup
  have hempty : sortedImageFiles env folder (some exts) = [] := by
    unfold sortedImageFiles
    simp only [Option.getD_some]
    rw [collectFiles_empty_of_upper folder env.entries exts hup]
    rfl
  exact update_no_files env folder sd inc (some exts) hdir hinc hempty

/-- Witness for C10: the override set `{'.JPG'}` yields the no-files
outcome on a directory full of `.jpg` files. -/
theorem claim_c10_uppercase_override_witness :
    (∀ ent ∈ [str ".JPG"], ∃ c ∈ ent, 65 ≤ c ∧ c ≤ 90) ∧
    update_image_dates envAllOk (str "/f") (.dt 0) 60 (some [str ".JPG"]) =
      ([.printed .noFiles], .returned) := by
  refine ⟨by decide, ?_⟩
  exact claim_c10_uppercase_override.2 envAllOk (str "/f") (.dt 0) 60 [str ".JPG"]
    rfl (by omega) (by decide)
